import Mathlib

/-!
Verification of the 1421 Foundation research system's retrieval and
streaming answer engine.

The backend is the Python class `UnifiedResearchSystem` (Streamlit unified
version): SQLite document store, FAISS vector index, sentence-transformer
embeddings.  The frontend streaming client is `streamChat` in
`frontend/src/lib/api.ts` and the chat page `Chat.tsx`.

Modelling choices:
* Text is a list of byte codepoints (`Str := List Nat`); SQLite `LIKE`
  is modelled with its documented default semantics for ASCII text:
  case-insensitive comparison with `%` (any sequence) and `_` (any one
  character) live as wildcards in the pattern.  The code binds
  `f"%{search_term}%"` with no ESCAPE clause, so wildcard characters in
  the user's term keep their wildcard meaning.
* The external FAISS call `index.search(vec, k)` is an oracle: its output
  (row index, distance) pairs are a parameter of the embedded
  `semanticSearch`; the FAISS contract (rows sorted by ascending
  non-negative distance, at most `k` of them) appears as hypotheses.
* Python `list` indexing (negative indices resolve from the end,
  out-of-range raises) is modelled by `pyGet`; a raised exception inside
  the `try` block makes the whole search return `[]`, exactly as the
  `except` clause in the source does.
* Distances/similarities are rationals (the source uses floats; the spec
  itself treats the transform mathematically).
-/

namespace Research1421

-- ===== definitions: shallow embedding of the source =====

/-- Byte strings: text as a list of codepoints. -/
abbrev Str := List Nat

/-- ASCII lower-casing of one codepoint (A-Z ↦ a-z, all else fixed). -/
def asciiLower (c : Nat) : Nat := if 65 ≤ c ∧ c ≤ 90 then c + 32 else c

/-- Lower-case a whole byte string. -/
def lowerStr (s : Str) : Str := s.map asciiLower

/-- Does `text` contain `pat` as a contiguous substring? -/
def hasInfix (pat : Str) : Str → Bool
  | [] => pat.isEmpty
  | c :: t => pat.isPrefixOf (c :: t) || hasInfix pat t

/-- Fuel-driven SQLite `LIKE` pattern matching against a text, with the
default ASCII case-insensitive comparison: `%` (code 37) matches any
sequence, `_` (code 95) matches exactly one character, anything else
matches one character up to ASCII case.  The fuel only serves
termination; `pattern.length + text.length` steps always suffice. -/
def likeMAux : Nat → Str → Str → Bool
  | 0, _, _ => false
  | Nat.succ fuel, p, t =>
    match p with
    | [] => t.isEmpty
    | c :: p2 =>
      if c = 37 then
        likeMAux fuel p2 t ||
          (match t with
           | [] => false
           | _ :: t2 => likeMAux fuel (c :: p2) t2)
      else
        match t with
        | [] => false
        | d :: t2 =>
          if c = 95 then likeMAux fuel p2 t2
          else (asciiLower c == asciiLower d) && likeMAux fuel p2 t2

/-- `pattern LIKE`-matches `text` (adequate fuel supplied). -/
def likeM (p t : Str) : Bool := likeMAux (p.length + t.length + 1) p t

/-- `column LIKE ?` with the bound pattern `f"%{search_term}%"` of
`search_documents_sql`: the term is wrapped in `%` and its own `%`/`_`
characters stay live as wildcards (there is no ESCAPE clause). -/
def likeMatch (text pat : Str) : Bool := likeM ([37] ++ pat ++ [37]) text

/-- Does a term contain no `LIKE` wildcard characters? -/
def noWildcards (s : Str) : Bool := s.all (fun c => c != 37 && c != 95)

/-- One row of the SQLite `documents` table. -/
structure Doc where
  id : Nat
  title : Str
  author : Str
  source_type : Str
  url : Str
  word_count : Nat
  content : Str
deriving DecidableEq, Repr

/-- One entry of the FAISS metadata list (`self.metadatas`): carries the
back-reference into the `documents` table. -/
structure Meta where
  id : Nat
deriving DecidableEq, Repr

/-- State of `UnifiedResearchSystem`: availability flags of the three
components plus the contents of the two stores.  `connected` is
`self.conn is not None`, `indexLoaded` is `self.index is not None`,
`modelLoaded` is `self.model is not None`. -/
structure Sys where
  connected : Bool
  indexLoaded : Bool
  modelLoaded : Bool
  docs : List Doc
  metadatas : List Meta
deriving Repr

/-- `ORDER BY id` over a list of document rows. -/
def sortById (l : List Doc) : List Doc := l.insertionSort (fun a b => a.id ≤ b.id)

/-- The `WHERE title LIKE ? OR content LIKE ? OR author LIKE ?` predicate of
`search_documents_sql`. -/
def docMatches (term : Str) (d : Doc) : Bool :=
  likeMatch d.title term || likeMatch d.content term || likeMatch d.author term

/-- `UnifiedResearchSystem.search_documents_sql(search_term, limit)`:
returns `[]` without a connection, else the matching rows ordered by id,
at most `limit` of them. -/
def searchDocumentsSql (st : Sys) (term : Str) (lim : Nat) : List Doc :=
  if st.connected then (sortById (st.docs.filter (docMatches term))).take lim
  else []

/-- The codepoints of the string `"All"`. -/
def strAll : Str := [65, 108, 108]

/-- `UnifiedResearchSystem.get_all_documents(limit, source_type)`: the
`source_type` filter applies only when the argument is truthy (not `None`,
not empty) and differs from `"All"`; rows are ordered by id and limited.
There is no offset parameter and no returned total count in the source. -/
def getAllDocuments (st : Sys) (lim : Nat) (source_type : Option Str) : List Doc :=
  if st.connected then
    match source_type with
    | some t =>
      if t ≠ [] ∧ t ≠ strAll then
        (sortById (st.docs.filter (fun d => d.source_type = t))).take lim
      else (sortById st.docs).take lim
    | none => (sortById st.docs).take lim
  else []

/-- The listing operation as the spec words it (`list(limit, offset,
filters)`): documents of the filtered set ordered by id, skipping
`offset`, at most `limit`, together with the filtered total count.  Stated
only to be compared with `getAllDocuments`. -/
def listPerSpec (docs : List Doc) (lim offset : Nat) (typeF : Option Str) :
    List Doc × Nat :=
  let f := match typeF with
    | some t => docs.filter (fun d => d.source_type = t)
    | none => docs
  (((sortById f).drop offset).take lim, f.length)

/-- `UnifiedResearchSystem.get_document_details(doc_id)`: `None` without a
connection, else the row with that id if present. -/
def getDocumentDetails (st : Sys) (i : Nat) : Option Doc :=
  if st.connected then st.docs.find? (fun d => d.id == i) else none

/-- Python list indexing `l[i]`: non-negative indices from the front,
negative indices from the end, `none` exactly when Python raises
`IndexError`. -/
def pyGet {α : Type} (l : List α) (i : Int) : Option α :=
  if 0 ≤ i then l.get? i.toNat
  else if 0 ≤ (l.length : Int) + i then l.get? ((l.length : Int) + i).toNat
  else none

/-- The distance-to-similarity transform of `semantic_search`:
`float(1.0 / (1.0 + distances[0][i]))`. -/
def similarity (d : ℚ) : ℚ := 1 / (1 + d)

/-- One element of the list `semantic_search` returns. -/
structure SearchResult where
  document_id : Nat
  title : Str
  author : Str
  source_type : Str
  url : Str
  word_count : Nat
  snippet : Str
  similarity : ℚ
  distance : ℚ
deriving DecidableEq, Repr

/-- The codepoints of `"..."` appended to every snippet. -/
def dots3 : Str := [46, 46, 46]

/-- The dict appended to `results` for one accepted row. -/
def mkSearchResult (docId : Nat) (doc : Doc) (d : ℚ) : SearchResult :=
  { document_id := docId
    title := doc.title
    author := doc.author
    source_type := doc.source_type
    url := doc.url
    word_count := doc.word_count
    snippet := doc.content.take 300 ++ dots3
    similarity := similarity d
    distance := d }

/-- The `for i, idx in enumerate(indices[0])` loop of `semantic_search`.
Each row is a FAISS (index, distance) pair.  The only guard on `idx` is
`idx < len(self.metadatas)`; an out-of-range Python indexing raises, which
is modelled by `none` (the `except` clause then returns `[]`).  A row whose
document is gone from the store (`doc_details` falsy) is skipped. -/
def searchLoop (st : Sys) : List (Int × ℚ) → Option (List SearchResult)
  | [] => some []
  | (idx, d) :: rest =>
    if idx < (st.metadatas.length : Int) then
      match pyGet st.metadatas idx with
      | none => none
      | some m =>
        match getDocumentDetails st m.id with
        | none => searchLoop st rest
        | some doc => (searchLoop st rest).map (mkSearchResult m.id doc d :: ·)
    else searchLoop st rest

/-- `UnifiedResearchSystem.semantic_search(query, k)`.  The embedding of
the query and the FAISS call are external; `rows` is the (index, distance)
list FAISS returns for the query.  Without a loaded index or model the
function returns `[]`; an exception inside the loop is caught and also
yields `[]`. -/
def semanticSearch (st : Sys) (rows : List (Int × ℚ)) : List SearchResult :=
  if st.indexLoaded ∧ st.modelLoaded then (searchLoop st rows).getD []
  else []

/-- A display row of the documents page (`show_documents_page`): built
either from a `semantic_search` dict (which has a `similarity` key) or
from a raw SQL row (which has none).  The optional field models the
presence or absence of the `similarity` key in the Python dict. -/
structure PageRow where
  id : Nat
  title : Str
  author : Str
  source_type : Str
  url : Str
  word_count : Nat
  similarity : Option ℚ
deriving DecidableEq, Repr

/-- A semantic result as a page row: `similarity` key present. -/
def toRowSem (r : SearchResult) : PageRow :=
  { id := r.document_id, title := r.title, author := r.author
    source_type := r.source_type, url := r.url, word_count := r.word_count
    similarity := some r.similarity }

/-- A raw SQL row as a page row: no `similarity` key. -/
def toRowSql (d : Doc) : PageRow :=
  { id := d.id, title := d.title, author := d.author
    source_type := d.source_type, url := d.url, word_count := d.word_count
    similarity := none }

/-- The search path of `show_documents_page`: try `semantic_search` first,
fall back to `search_documents_sql` exactly when it produced nothing. -/
def docPageSearch (st : Sys) (rows : List (Int × ℚ)) (term : Str) (lim : Nat) :
    List PageRow :=
  let sem := semanticSearch st rows
  if sem.isEmpty then (searchDocumentsSql st term lim).map toRowSql
  else sem.map toRowSem

instance : IsTotal Doc (fun a b => a.id ≤ b.id) := ⟨fun a b => Nat.le_total a.id b.id⟩

instance : IsTrans Doc (fun a b => a.id ≤ b.id) := ⟨fun _ _ _ => Nat.le_trans⟩

/-- A document row with the given id and title and empty remaining fields. -/
def mkDoc (i : Nat) (t : Str) : Doc :=
  { id := i, title := t, author := [], source_type := [], url := []
    word_count := 0, content := [] }

def c1St : Sys :=
  { connected := true, indexLoaded := true, modelLoaded := true
    docs := [mkDoc 3 [97], mkDoc 5 [98]], metadatas := [⟨5⟩, ⟨3⟩] }

def c1Rows : List (Int × ℚ) := [(0, 1), (1, 2)]

def c1TieRows : List (Int × ℚ) := [(0, 1), (1, 1)]

def c6St : Sys :=
  { connected := true, indexLoaded := true, modelLoaded := true
    docs := [mkDoc 1 [97]], metadatas := [⟨7⟩, ⟨1⟩] }

def c3StUnavail : Sys :=
  { connected := true, indexLoaded := false, modelLoaded := true
    docs := [mkDoc 1 [97]], metadatas := [] }

def c3StLoaded : Sys :=
  { connected := true, indexLoaded := true, modelLoaded := true
    docs := [mkDoc 1 [97]], metadatas := [⟨9⟩] }

def c3StNoConn : Sys :=
  { connected := false, indexLoaded := true, modelLoaded := true
    docs := [mkDoc 1 [97]], metadatas := [] }

def c5St : Sys :=
  { connected := true, indexLoaded := false, modelLoaded := false
    docs := [mkDoc 1 [65]], metadatas := [] }

/-- A document whose content is `"a100b"` — it does not contain the term
`"100%"` as a substring. -/
def c5WildDoc : Doc :=
  { id := 1, title := [116], author := [], source_type := [], url := []
    word_count := 0, content := [97, 49, 48, 48, 98] }

def c5WildSt : Sys :=
  { connected := true, indexLoaded := false, modelLoaded := false
    docs := [c5WildDoc], metadatas := [] }

def c8DocA : Doc := mkDoc 1 [97]

def c8DocB : Doc := mkDoc 2 [98]

def c8St : Sys :=
  { connected := true, indexLoaded := true, modelLoaded := true
    docs := [c8DocA, c8DocB], metadatas := [] }

/-- A document whose `source_type` is `"x"`. -/
def c8DocT : Doc :=
  { id := 3, title := [99], author := [], source_type := [120], url := []
    word_count := 0, content := [] }

def c8StT : Sys :=
  { connected := true, indexLoaded := true, modelLoaded := true
    docs := [c8DocT], metadatas := [] }

def c9Doc : Doc := mkDoc 4 [99]

def c9St : Sys :=
  { connected := true, indexLoaded := true, modelLoaded := true
    docs := [c9Doc], metadatas := [⟨7⟩, ⟨4⟩] }

/-- JS whitespace as trimmed by `String.prototype.trim`, restricted to the
ASCII codepoints occurring in an SSE byte stream. -/
def isWs (c : Nat) : Bool :=
  c = 32 || c = 9 || c = 10 || c = 11 || c = 12 || c = 13

/-- `line.trim()`. -/
def jsTrim (s : Str) : Str :=
  ((s.dropWhile isWs).reverse.dropWhile isWs).reverse

/-- The codepoints of the `"data: "` marker. -/
def dataMark : Str := [100, 97, 116, 97, 58, 32]

/-- The codepoints of the `"[DONE]"` terminal sentinel. -/
def doneTok : Str := [91, 68, 79, 78, 69, 93]

/-- The codepoints of the `"ERROR:"` marker of an error frame. -/
def errMark : Str := [69, 82, 82, 79, 82, 58]

/-- `data.replace(/\\n/g, "\n")`: restore server-escaped newlines,
left-to-right and non-overlapping as the global regex does. -/
def unescape : Str → Str
  | 92 :: 110 :: rest => 10 :: unescape rest
  | c :: rest => c :: unescape rest
  | [] => []

/-- `buffer.indexOf("\n\n")`: split the buffer at the first blank-line
frame delimiter, if any. -/
def splitFirstFrame : Str → Option (Str × Str)
  | [] => none
  | [_] => none
  | c1 :: c2 :: rest =>
    if c1 = 10 ∧ c2 = 10 then some ([], rest)
    else
      match splitFirstFrame (c2 :: rest) with
      | none => none
      | some (f, r) => some (c1 :: f, r)

/-- Fuel-driven repeated frame splitting (the inner `while` over
`indexOf("\n\n")`): complete frames in order plus the remaining buffer. -/
def extractFramesAux : Nat → Str → List Str × Str
  | 0, buf => ([], buf)
  | Nat.succ fuel, buf =>
    match splitFirstFrame buf with
    | none => ([], buf)
    | some (f, rest) =>
      let p := extractFramesAux fuel rest
      (f :: p.1, p.2)

/-- All complete frames of a buffer plus its leftover (the buffer length
bounds the number of frames, so it is enough fuel). -/
def extractFrames (buf : Str) : List Str × Str := extractFramesAux buf.length buf

/-- The events `streamChat` hands to its callbacks. -/
inductive Ev where
  | delta (s : Str)
  | done
  | errorEv (m : Str)
deriving DecidableEq, Repr

/-- What the body of the inner loop does with one complete frame. -/
inductive FrameAct where
  | skip
  | deltaA (s : Str)
  | doneA
  | errorA (m : Str)
deriving DecidableEq, Repr

/-- Classify one complete frame: trim it, skip it unless it starts with
`"data: "`, strip that marker, then check `"[DONE]"` and `"ERROR:"` (whose
handler drops 7 characters — the marker plus one more); anything else is a
text delta with escaped newlines restored. -/
def frameAct (f : Str) : FrameAct :=
  let t := jsTrim f
  if dataMark.isPrefixOf t then
    let d := t.drop 6
    if d = doneTok then FrameAct.doneA
    else if errMark.isPrefixOf d then FrameAct.errorA (d.drop 7)
    else FrameAct.deltaA (unescape d)
  else FrameAct.skip

/-- Process complete frames in order; the Bool records whether a terminal
frame caused the early `return`. -/
def procFrames : List Str → List Ev × Bool
  | [] => ([], false)
  | f :: fs =>
    match frameAct f with
    | FrameAct.skip => procFrames fs
    | FrameAct.doneA => ([Ev.done], true)
    | FrameAct.errorA m => ([Ev.errorEv m], true)
    | FrameAct.deltaA s =>
      (Ev.delta s :: (procFrames fs).1, (procFrames fs).2)

/-- The read loop of `streamChat`: each network chunk is appended to the
buffer, complete frames are processed at once, a terminal frame stops
everything.  When the reader finishes, `onDone` fires (whatever partial
frame is still buffered); when the reader raises, the `catch` clause fires
`onError` with the exception message (`readErr`). -/
def runChunks (readErr : Option Str) (buf : Str) : List Str → List Ev
  | [] =>
    match readErr with
    | some m => [Ev.errorEv m]
    | none => [Ev.done]
  | c :: rest =>
    if (procFrames (extractFrames (buf ++ c)).1).2 then
      (procFrames (extractFrames (buf ++ c)).1).1
    else
      (procFrames (extractFrames (buf ++ c)).1).1 ++
        runChunks readErr (extractFrames (buf ++ c)).2 rest

/-- `streamChat`: the ordered trace of callback invocations for a given
list of delivered network chunks and optional reader failure. -/
def streamChat (chunks : List Str) (readErr : Option Str) : List Ev :=
  runChunks readErr [] chunks

/-- Is an event a text delta? -/
def isDeltaEv : Ev → Bool
  | Ev.delta _ => true
  | _ => false

/-- A source entry as the frontend receives it (`ChatSource` in api.ts). -/
structure Src where
  title : Str
  author : Str
  year : Nat
  typ : Str
  similarity : Option ℚ
deriving DecidableEq, Repr

/-- What the chat page shows for each terminal event: `onDone` fetches the
sources via a follow-up `sendChatMessage` call (empty on failure), and
`onError` sets an error message. -/
inductive UiEv where
  | uiDelta (s : Str)
  | uiSources (ss : List Src)
  | uiErrorMsg (m : Str)
deriving DecidableEq, Repr

/-- The UI-level trace of `handleSend`: deltas pass through; the `onDone`
callback turns into the sources fetch (`fetched` is what the follow-up
request returned, `none` when it failed); `onError` into the error
message. -/
def uiTrace (chunks : List Str) (readErr : Option Str)
    (fetched : Option (List Src)) : List UiEv :=
  (streamChat chunks readErr).map fun e =>
    match e with
    | Ev.delta s => UiEv.uiDelta s
    | Ev.done => UiEv.uiSources (fetched.getD [])
    | Ev.errorEv m => UiEv.uiErrorMsg m

/-- The codepoints of the `"Error: "` label the chat page substitutes. -/
def errLabel : Str := [69, 114, 114, 111, 114, 58, 32]

/-- The content of the assistant message after the trace finishes:
`onDelta` appends the chunk to the accumulated content, `onDone` keeps the
accumulated content, `onError` replaces the whole message by
`"Error: " + err`. -/
def finalContent : List Ev → Str → Str
  | [], acc => acc
  | Ev.delta s :: rest, acc => finalContent rest (acc ++ s)
  | Ev.done :: _, acc => acc
  | Ev.errorEv m :: _, _ => errLabel ++ m

/-- The assistant content the chat page displays once `handleSend`
finished for the given stream. -/
def chatFinalContent (chunks : List Str) (readErr : Option Str) : Str :=
  finalContent (streamChat chunks readErr) []

/-- A complete `"data: [DONE]"` frame. -/
def doneFrame : Str := dataMark ++ doneTok

/-- A complete `"data: ERROR: x"` frame. -/
def errFrameX : Str := dataMark ++ errMark ++ [32, 120]

/-- One-shot view of the protocol: the complete frames of the whole byte
stream processed in order, with a trailing `done` when no terminal frame
occurred. -/
def oneShotEvents (s : Str) : List Ev :=
  if (procFrames (extractFrames s).1).2 then (procFrames (extractFrames s).1).1
  else (procFrames (extractFrames s).1).1 ++ [Ev.done]

/-- Is a UI event a text delta? -/
def isUiDelta : UiEv → Bool
  | UiEv.uiDelta _ => true
  | _ => false

/-- One chunk carrying a delta frame `"data: Hi"` followed by an error
frame `"data: ERROR: boom"`. -/
def c4Chunks : List Str :=
  [dataMark ++ [72, 105] ++ [10, 10] ++
   dataMark ++ errMark ++ [32, 98, 111, 111, 109] ++ [10, 10]]

-- ===== theorems =====

theorem asciiLower_idem (c : Nat) : asciiLower (asciiLower c) = asciiLower c := by
  unfold asciiLower
  split
  · split <;> omega
  · rfl

theorem hasInfix_iff_contains (pat text : Str) :
    hasInfix pat text = true ↔ List.IsInfix pat text := by
  induction text with
  | nil =>
    simp [hasInfix, List.isEmpty_iff, List.infix_nil]
  | cons c t ih =>
    simp only [hasInfix, Bool.or_eq_true, ih, List.infix_cons_iff,
      List.isPrefixOf_iff_prefix]

theorem asciiLower_eq_37 (c : Nat) : asciiLower c = 37 ↔ c = 37 := by
  unfold asciiLower
  split <;> omega

theorem asciiLower_eq_95 (c : Nat) : asciiLower c = 95 ↔ c = 95 := by
  unfold asciiLower
  split <;> omega

theorem likeMAux_fuel : ∀ (f1 f2 : Nat) (p t : Str),
    p.length + t.length < f1 → p.length + t.length < f2 →
    likeMAux f1 p t = likeMAux f2 p t := by
  intro f1
  induction f1 with
  | zero => intro f2 p t h1 _; omega
  | succ n ih =>
    intro f2 p t h1 h2
    cases f2 with
    | zero => omega
    | succ m =>
      simp only [likeMAux]
      cases p with
      | nil => rfl
      | cons c p2 =>
        dsimp only
        simp only [List.length_cons] at h1 h2
        by_cases hc : c = 37
        · rw [if_pos hc, if_pos hc]
          rw [ih m p2 t (by omega) (by omega)]
          cases t with
          | nil => rfl
          | cons d t2 =>
            dsimp only
            simp only [List.length_cons] at h1 h2
            rw [ih m (c :: p2) t2
              (by simp only [List.length_cons]; omega)
              (by simp only [List.length_cons]; omega)]
        · rw [if_neg hc, if_neg hc]
          cases t with
          | nil => rfl
          | cons d t2 =>
            dsimp only
            simp only [List.length_cons] at h1 h2
            by_cases hc2 : c = 95
            · rw [if_pos hc2, if_pos hc2, ih m p2 t2 (by omega) (by omega)]
            · rw [if_neg hc2, if_neg hc2, ih m p2 t2 (by omega) (by omega)]

theorem likeM_eq (p t : Str) : likeM p t =
    (match p with
     | [] => t.isEmpty
     | c :: p2 =>
       if c = 37 then
         likeM p2 t ||
           (match t with
            | [] => false
            | _ :: t2 => likeM (c :: p2) t2)
       else
         match t with
         | [] => false
         | d :: t2 =>
           if c = 95 then likeM p2 t2
           else (asciiLower c == asciiLower d) && likeM p2 t2) := by
  unfold likeM
  simp only [likeMAux]
  cases p with
  | nil => rfl
  | cons c p2 =>
    dsimp only
    by_cases hc : c = 37
    · rw [if_pos hc, if_pos hc]
      congr 1
      · exact likeMAux_fuel ((c :: p2).length + t.length)
          (p2.length + t.length + 1) p2 t
          (by simp only [List.length_cons]; omega) (by omega)
      · cases t with
        | nil => rfl
        | cons d t2 =>
          dsimp only
          exact likeMAux_fuel ((c :: p2).length + (d :: t2).length)
            ((c :: p2).length + t2.length + 1) (c :: p2) t2
            (by simp only [List.length_cons]; omega)
            (by simp only [List.length_cons]; omega)
    · rw [if_neg hc, if_neg hc]
      cases t with
      | nil => rfl
      | cons d t2 =>
        dsimp only
        by_cases hc2 : c = 95
        · rw [if_pos hc2, if_pos hc2]
          exact likeMAux_fuel ((c :: p2).length + (d :: t2).length)
            (p2.length + t2.length + 1) p2 t2
            (by simp only [List.length_cons]; omega) (by omega)
        · rw [if_neg hc2, if_neg hc2]
          congr 1
          exact likeMAux_fuel ((c :: p2).length + (d :: t2).length)
            (p2.length + t2.length + 1) p2 t2
            (by simp only [List.length_cons]; omega) (by omega)

theorem likeM_nil (t : Str) : likeM [] t = t.isEmpty := by
  rw [likeM_eq]

theorem likeM_pct_any : ∀ t : Str, likeM [37] t = true := by
  intro t
  induction t with
  | nil => rw [likeM_eq]; simp [likeM_nil]
  | cons d t2 ih => rw [likeM_eq]; simp [likeM_nil, ih]

theorem likeM_litPct (lit : Str) : ∀ t : Str, noWildcards lit = true →
    likeM (lit ++ [37]) t = (lowerStr lit).isPrefixOf (lowerStr t) := by
  induction lit with
  | nil =>
    intro t _
    simp [likeM_pct_any t, lowerStr, List.isPrefixOf]
  | cons c lit2 ih =>
    intro t hw
    simp only [noWildcards, List.all_cons, Bool.and_eq_true] at hw
    obtain ⟨⟨hc37, hc95⟩, hw2⟩ := hw
    have hc37' : c ≠ 37 := by simpa using hc37
    have hc95' : c ≠ 95 := by simpa using hc95
    rw [List.cons_append, likeM_eq]
    dsimp only
    rw [if_neg hc37']
    cases t with
    | nil => simp [lowerStr, List.isPrefixOf]
    | cons d t2 =>
      dsimp only
      rw [if_neg hc95']
      rw [ih t2 hw2]
      simp [lowerStr, List.isPrefixOf]

theorem likeMatch_noWild (text pat : Str) (h : noWildcards pat = true) :
    likeMatch text pat = hasInfix (lowerStr pat) (lowerStr text) := by
  unfold likeMatch
  have hshape : ([37] ++ pat ++ [37] : Str) = 37 :: (pat ++ [37]) := rfl
  rw [hshape]
  induction text with
  | nil =>
    rw [likeM_eq]
    dsimp only
    rw [if_pos rfl]
    rw [likeM_litPct pat [] h]
    cases hp : lowerStr pat with
    | nil => simp [lowerStr, hasInfix, List.isPrefixOf]
    | cons a as => simp [lowerStr, hasInfix, List.isPrefixOf]
  | cons d t2 ih =>
    rw [likeM_eq]
    dsimp only
    rw [if_pos rfl]
    rw [likeM_litPct pat (d :: t2) h]
    rw [ih]
    simp [lowerStr, hasInfix]

theorem likeM_lower_fuel : ∀ (n : Nat) (p t : Str), p.length + t.length ≤ n →
    likeM (lowerStr p) (lowerStr t) = likeM p t := by
  intro n
  induction n with
  | zero =>
    intro p t h
    have hp : p = [] := List.eq_nil_of_length_eq_zero (by omega)
    have ht : t = [] := List.eq_nil_of_length_eq_zero (by omega)
    subst hp; subst ht; rfl
  | succ n ih =>
    intro p t h
    rw [likeM_eq (lowerStr p) (lowerStr t), likeM_eq p t]
    cases p with
    | nil => cases t <;> simp [lowerStr]
    | cons c p2 =>
      simp only [List.length_cons] at h
      simp only [lowerStr, List.map_cons]
      by_cases hc : c = 37
      · have hcl : asciiLower c = 37 := (asciiLower_eq_37 c).mpr hc
        rw [if_pos hcl, if_pos hc]
        have h1 : likeM (List.map asciiLower p2) (List.map asciiLower t) =
            likeM p2 t := ih p2 t (by omega)
        rw [h1]
        cases t with
        | nil => rfl
        | cons d t2 =>
          simp only [List.length_cons] at h
          simp only [List.map_cons]
          have h2 : likeM (asciiLower c :: List.map asciiLower p2)
              (List.map asciiLower t2) = likeM (c :: p2) t2 := by
            have := ih (c :: p2) t2 (by simp only [List.length_cons]; omega)
            simpa [lowerStr] using this
          rw [h2]
      · have hcl : asciiLower c ≠ 37 := fun hh => hc ((asciiLower_eq_37 c).mp hh)
        rw [if_neg hcl, if_neg hc]
        cases t with
        | nil => rfl
        | cons d t2 =>
          simp only [List.length_cons] at h
          simp only [List.map_cons]
          by_cases hc2 : c = 95
          · have hcl2 : asciiLower c = 95 := (asciiLower_eq_95 c).mpr hc2
            rw [if_pos hcl2, if_pos hc2]
            have := ih p2 t2 (by omega)
            simpa [lowerStr] using this
          · have hcl2 : asciiLower c ≠ 95 :=
              fun hh => hc2 ((asciiLower_eq_95 c).mp hh)
            rw [if_neg hcl2, if_neg hc2]
            have h3 : likeM (List.map asciiLower p2) (List.map asciiLower t2) =
                likeM p2 t2 := ih p2 t2 (by omega)
            rw [h3, asciiLower_idem, asciiLower_idem]

theorem likeM_lower (p t : Str) :
    likeM (lowerStr p) (lowerStr t) = likeM p t :=
  likeM_lower_fuel (p.length + t.length) p t le_rfl

theorem likeMatch_lower_congr (text t1 t2 : Str) (h : lowerStr t1 = lowerStr t2) :
    likeMatch text t1 = likeMatch text t2 := by
  unfold likeMatch
  rw [← likeM_lower ([37] ++ t1 ++ [37]) text,
    ← likeM_lower ([37] ++ t2 ++ [37]) text]
  have h2 : List.map asciiLower t1 = List.map asciiLower t2 := h
  congr 1
  simp [lowerStr, List.map_append, h2]

theorem sortById_perm (l : List Doc) : List.Perm (sortById l) l :=
  List.perm_insertionSort _ l

theorem sortById_sorted (l : List Doc) :
    List.Pairwise (fun a b => a.id ≤ b.id) (sortById l) :=
  List.sorted_insertionSort _ l

theorem searchLoop_dist_sublist (st : Sys) (rows : List (Int × ℚ)) :
    ∀ res, searchLoop st rows = some res →
      List.Sublist (res.map (fun r => r.distance)) (rows.map Prod.snd) := by
  induction rows with
  | nil =>
    intro res h
    simp only [searchLoop, Option.some.injEq] at h
    subst h; simp
  | cons p rest ih =>
    obtain ⟨idx, d⟩ := p
    intro res h
    by_cases hidx : idx < (st.metadatas.length : Int)
    · simp only [searchLoop, if_pos hidx] at h
      cases hp : pyGet st.metadatas idx <;> rw [hp] at h <;> (try dsimp only at h)
      · exact absurd h (by simp)
      next m =>
        cases hg : getDocumentDetails st m.id <;> rw [hg] at h <;> (try dsimp only at h)
        · exact (ih res h).cons _
        next doc =>
          cases hr : searchLoop st rest <;> rw [hr] at h <;> (try dsimp only at h)
          · exact absurd h (by simp)
          next res' =>
            simp only [Option.map_some', Option.some.injEq] at h
            subst h
            simpa [mkSearchResult] using (ih res' hr).cons₂ d
    · simp only [searchLoop, if_neg hidx] at h
      exact (ih res h).cons _

theorem searchLoop_sim_eq (st : Sys) (rows : List (Int × ℚ)) :
    ∀ res, searchLoop st rows = some res →
      ∀ r ∈ res, r.similarity = similarity r.distance := by
  induction rows with
  | nil =>
    intro res h
    simp only [searchLoop, Option.some.injEq] at h
    subst h; simp
  | cons p rest ih =>
    obtain ⟨idx, d⟩ := p
    intro res h
    by_cases hidx : idx < (st.metadatas.length : Int)
    · simp only [searchLoop, if_pos hidx] at h
      cases hp : pyGet st.metadatas idx <;> rw [hp] at h <;> (try dsimp only at h)
      · exact absurd h (by simp)
      next m =>
        cases hg : getDocumentDetails st m.id <;> rw [hg] at h <;> (try dsimp only at h)
        · exact ih res h
        next doc =>
          cases hr : searchLoop st rest <;> rw [hr] at h <;> (try dsimp only at h)
          · exact absurd h (by simp)
          next res' =>
            simp only [Option.map_some', Option.some.injEq] at h
            subst h
            intro r hr2
            rcases List.mem_cons.1 hr2 with h1 | h1
            · subst h1; rfl
            · exact ih res' hr r h1
    · simp only [searchLoop, if_neg hidx] at h
      exact ih res h

theorem searchLoop_stale (st : Sys) (i : Nat)
    (hnone : getDocumentDetails st i = none) (rows : List (Int × ℚ)) :
    ∀ res, searchLoop st rows = some res → ∀ r ∈ res, r.document_id ≠ i := by
  induction rows with
  | nil =>
    intro res h
    simp only [searchLoop, Option.some.injEq] at h
    subst h; simp
  | cons p rest ih =>
    obtain ⟨idx, d⟩ := p
    intro res h
    by_cases hidx : idx < (st.metadatas.length : Int)
    · simp only [searchLoop, if_pos hidx] at h
      cases hp : pyGet st.metadatas idx <;> rw [hp] at h <;> (try dsimp only at h)
      · exact absurd h (by simp)
      next m =>
        cases hg : getDocumentDetails st m.id <;> rw [hg] at h <;> (try dsimp only at h)
        · exact ih res h
        next doc =>
          cases hr : searchLoop st rest <;> rw [hr] at h <;> (try dsimp only at h)
          · exact absurd h (by simp)
          next res' =>
            simp only [Option.map_some', Option.some.injEq] at h
            subst h
            intro r hr2
            rcases List.mem_cons.1 hr2 with h1 | h1
            · subst h1
              intro hEq
              simp only [mkSearchResult] at hEq
              rw [hEq] at hg
              rw [hg] at hnone
              exact Option.noConfusion hnone
            · exact ih res' hr r h1
    · simp only [searchLoop, if_neg hidx] at h
      exact ih res h

theorem similarity_le_one (d : ℚ) (hd : 0 ≤ d) : similarity d ≤ 1 := by
  unfold similarity
  rw [div_le_one (by linarith)]
  linarith

theorem similarity_nonneg (d : ℚ) (hd : 0 ≤ d) : 0 ≤ similarity d := by
  unfold similarity
  positivity

theorem similarity_anti (a b : ℚ) (ha : 0 ≤ a) (hab : a ≤ b) :
    similarity b ≤ similarity a := by
  unfold similarity
  have h1 : (0 : ℚ) < 1 + a := by linarith
  have h2 : (0 : ℚ) < 1 + b := by linarith
  exact one_div_le_one_div_of_le h1 (by linarith)

theorem similarity_strict_anti (a b : ℚ) (ha : 0 ≤ a) (hab : a < b) :
    similarity b < similarity a := by
  unfold similarity
  have h1 : (0 : ℚ) < 1 + a := by linarith
  exact one_div_lt_one_div_of_lt h1 (by linarith)

theorem pyGet_neg_one {α : Type} (l : List α) : pyGet l (-1) = l.getLast? := by
  cases l with
  | nil => simp [pyGet]
  | cons a t =>
    have hlen : ((a :: t).length : Int) + -1 = (t.length : Int) := by
      simp [List.length_cons]
    have h0 : ¬ (0 : Int) ≤ -1 := by omega
    have h1 : (0 : Int) ≤ ((a :: t).length : Int) + -1 := by
      rw [hlen]; exact Int.natCast_nonneg _
    rw [pyGet, if_neg h0, if_pos h1, hlen]
    rw [List.getLast?_eq_get?]
    simp [List.length_cons]

/-- Claim C1, amended: `semantic_search` returns at most `k` results and
they are ordered by non-increasing similarity (given the FAISS contract
that the returned rows are at most `k`, sorted by ascending non-negative
distance).  The claimed document-id tie-break does not exist in the code
(see the counterexample). -/
theorem c1_semantic_search_at_most_k_sorted (st : Sys) (rows : List (Int × ℚ))
    (k : Nat) (hk : rows.length ≤ k)
    (hsorted : List.Pairwise (fun a b => a.2 ≤ b.2) rows)
    (hnn : ∀ r ∈ rows, 0 ≤ r.2) :
    (semanticSearch st rows).length ≤ k ∧
    List.Pairwise (fun a b => b.similarity ≤ a.similarity)
      (semanticSearch st rows) := by
  unfold semanticSearch
  split
  · cases hr : searchLoop st rows with
    | none => simp
    | some res =>
      simp only [Option.getD_some]
      have hsub := searchLoop_dist_sublist st rows res hr
      constructor
      · have hlen := hsub.length_le
        simp only [List.length_map] at hlen
        omega
      · have hmapped : List.Pairwise (fun a b => a ≤ b) (rows.map Prod.snd) :=
          List.pairwise_map.mpr hsorted
        have hres : List.Pairwise (fun a b => a ≤ b)
            (res.map (fun r => r.distance)) :=
          hmapped.sublist hsub
        have hresd : List.Pairwise (fun a b => a.distance ≤ b.distance) res :=
          List.pairwise_map.mp hres
        refine List.Pairwise.imp_of_mem ?_ hresd
        intro a b ha hb hab
        have hsa := searchLoop_sim_eq st rows res hr a ha
        have hsb := searchLoop_sim_eq st rows res hr b hb
        have hda : 0 ≤ a.distance := by
          have hmem : a.distance ∈ rows.map Prod.snd :=
            hsub.subset (List.mem_map_of_mem _ ha)
          obtain ⟨p, hpmem, hpd⟩ := List.mem_map.mp hmem
          exact hpd ▸ hnn p hpmem
        rw [hsa, hsb]
        exact similarity_anti _ _ hda hab
  · simp

/-- Claim C1 witness: the theorem applied to a concrete two-document
state with distinct distances. -/
theorem c1_witness :
    (semanticSearch c1St c1Rows).length ≤ 2 ∧
    List.Pairwise (fun a b => b.similarity ≤ a.similarity)
      (semanticSearch c1St c1Rows) :=
  c1_semantic_search_at_most_k_sorted c1St c1Rows 2 (by decide) (by decide)
    (by decide)

/-- Claim C1 counterexample: two FAISS rows with equal distance whose
index order is [document 5, document 3].  The code applies no tie-break,
so the results keep that order and the claimed ordering (equal similarity
⇒ lower document id first) is violated. -/
theorem c1_tie_break_counterexample :
    (semanticSearch c1St c1TieRows).map (fun r => r.document_id) = [5, 3] ∧
    (semanticSearch c1St c1TieRows).map (fun r => r.similarity) = [1/2, 1/2] ∧
    ¬ List.Pairwise (fun a b => b.similarity < a.similarity ∨
        (a.similarity = b.similarity ∧ a.document_id < b.document_id))
      (semanticSearch c1St c1TieRows) := by
  have heq : semanticSearch c1St c1TieRows =
      [mkSearchResult 5 (mkDoc 5 [98]) 1, mkSearchResult 3 (mkDoc 3 [97]) 1] := by
    rfl
  refine ⟨by rw [heq]; rfl, ?_, ?_⟩
  · rw [heq]
    simp only [List.map_cons, List.map_nil, mkSearchResult, similarity]
    norm_num
  · rw [heq]
    intro h
    have h2 := List.rel_of_pairwise_cons h (List.mem_cons_self _ _)
    rcases h2 with hlt | ⟨hsim, hid⟩
    · exact lt_irrefl _ hlt
    · exact absurd hid (by decide)

/-- Claim C6: a document deleted from the store while its embedding
remains in the index is silently filtered: its id never appears among the
results and the search still returns a value. -/
theorem c6_stale_reference_filtered (st : Sys) (rows : List (Int × ℚ))
    (i : Nat) (hgone : getDocumentDetails st i = none) :
    ∀ r ∈ semanticSearch st rows, r.document_id ≠ i := by
  unfold semanticSearch
  split
  · cases hr : searchLoop st rows with
    | none => simp
    | some res => simpa using searchLoop_stale st i hgone rows res hr
  · simp

/-- Claim C6 witness: document 7 is deleted but its vector row remains;
the theorem applied to this state and to the one result the search
returns shows that result is not for the deleted id. -/
theorem c6_witness :
    (mkSearchResult 1 (mkDoc 1 [97]) 2).document_id ≠ 7 :=
  c6_stale_reference_filtered c6St [(0, 1), (1, 2)] 7 (by decide)
    (mkSearchResult 1 (mkDoc 1 [97]) 2) (by exact List.mem_singleton.mpr rfl)

/-- Claim C3, amended: when the vector index or model is not loaded,
`semantic_search` returns the empty list, and when the database connection
is absent, `search_documents_sql` returns the empty list — the same value
an available system returns for zero hits, not a distinct signal. -/
theorem c3_unavailable_returns_empty (st : Sys) (rows : List (Int × ℚ))
    (term : Str) (lim : Nat) :
    (st.indexLoaded = false ∨ st.modelLoaded = false →
      semanticSearch st rows = []) ∧
    (st.connected = false → searchDocumentsSql st term lim = []) := by
  constructor
  · intro h
    unfold semanticSearch
    rcases h with h | h <;> rw [h] <;> simp
  · intro h
    unfold searchDocumentsSql
    rw [h]
    simp

/-- Claim C3 counterexample: the value returned with the index missing is
the empty list, identical to the value returned by a fully loaded system
whose search finds nothing (here: the only vector row is stale), and the
value returned without a database connection is likewise the plain empty
list.  The caller cannot distinguish unavailability from zero results. -/
theorem c3_counterexample :
    semanticSearch c3StUnavail [(0, 1)] = [] ∧
    semanticSearch c3StLoaded [(0, 1)] = [] ∧
    semanticSearch c3StUnavail [(0, 1)] = semanticSearch c3StLoaded [(0, 1)] ∧
    searchDocumentsSql c3StNoConn [97] 50 = [] ∧
    searchDocumentsSql c3StLoaded [120] 50 = [] ∧
    searchDocumentsSql c3StNoConn [97] 50 = searchDocumentsSql c3StLoaded [120] 50 := by
  refine ⟨rfl, rfl, rfl, rfl, ?_, ?_⟩ <;> rfl

/-- Claim C3 witness: the amended theorem applied to the concrete
unavailable states. -/
theorem c3_witness :
    semanticSearch c3StUnavail [(0, 1)] = [] ∧
    searchDocumentsSql c3StNoConn [97] 50 = [] :=
  ⟨(c3_unavailable_returns_empty c3StUnavail [(0, 1)] [97] 50).1 (Or.inl rfl),
   (c3_unavailable_returns_empty c3StNoConn [(0, 1)] [97] 50).2 rfl⟩

/-- Claim C5, amended: lexical search returns at most `limit` rows; it
matches rows whose title, content or author `LIKE`-match the bound
pattern `%term%` with the term's own `%`/`_` characters live as wildcards
(there is no ESCAPE clause), so for a term free of wildcard characters —
and only then — every returned row contains the (lower-cased) term as a
substring of one of those fields; the search is case-insensitive in the
term; and the documents page uses it exactly when semantic search
produced nothing, in which case the rows carry no similarity field
(while semantic rows always do). -/
theorem c5_lexical_fallback (st : Sys) (term : Str) (lim : Nat) :
    (searchDocumentsSql st term lim).length ≤ lim ∧
    (noWildcards term = true →
      ∀ d ∈ searchDocumentsSql st term lim,
        List.IsInfix (lowerStr term) (lowerStr d.title) ∨
        List.IsInfix (lowerStr term) (lowerStr d.content) ∨
        List.IsInfix (lowerStr term) (lowerStr d.author)) ∧
    (∀ t2, lowerStr term = lowerStr t2 →
      searchDocumentsSql st term lim = searchDocumentsSql st t2 lim) ∧
    (∀ rows, (semanticSearch st rows ≠ [] ∧
        ∀ r ∈ docPageSearch st rows term lim, (r.similarity).isSome = true) ∨
      (semanticSearch st rows = [] ∧
        ∀ r ∈ docPageSearch st rows term lim, r.similarity = none)) := by
  refine ⟨?_, ?_, ?_, ?_⟩
  · unfold searchDocumentsSql
    split
    · exact List.length_take_le _ _
    · simp
  · intro hw d hd
    unfold searchDocumentsSql at hd
    split at hd
    · have h1 : d ∈ sortById (st.docs.filter (docMatches term)) :=
        List.mem_of_mem_take hd
      have h2 : d ∈ st.docs.filter (docMatches term) :=
        (sortById_perm _).mem_iff.mp h1
      have h3 : docMatches term d = true := List.of_mem_filter h2
      unfold docMatches at h3
      rw [likeMatch_noWild d.title term hw, likeMatch_noWild d.content term hw,
        likeMatch_noWild d.author term hw] at h3
      simp only [Bool.or_eq_true] at h3
      rcases h3 with (h3 | h3) | h3
      · exact Or.inl ((hasInfix_iff_contains _ _).mp h3)
      · exact Or.inr (Or.inl ((hasInfix_iff_contains _ _).mp h3))
      · exact Or.inr (Or.inr ((hasInfix_iff_contains _ _).mp h3))
    · simp at hd
  · intro t2 h
    unfold searchDocumentsSql
    have hmatch : docMatches term = docMatches t2 := by
      funext d
      unfold docMatches
      rw [likeMatch_lower_congr d.title term t2 h,
        likeMatch_lower_congr d.content term t2 h,
        likeMatch_lower_congr d.author term t2 h]
    rw [hmatch]
  · intro rows
    by_cases hsem : semanticSearch st rows = []
    · refine Or.inr ⟨hsem, ?_⟩
      intro r hr
      unfold docPageSearch at hr
      rw [hsem] at hr
      simp only [List.isEmpty_nil, if_true] at hr
      obtain ⟨d, _, hd⟩ := List.mem_map.mp hr
      rw [← hd]
      rfl
    · refine Or.inl ⟨hsem, ?_⟩
      intro r hr
      unfold docPageSearch at hr
      rw [if_neg (by simpa [List.isEmpty_iff] using hsem)] at hr
      obtain ⟨d, _, hd⟩ := List.mem_map.mp hr
      rw [← hd]
      rfl

/-- Claim C5 counterexample: the wildcard-free reading of the claim fails
— for the term `"100%"` the bound pattern is `%100%%`, whose trailing
`%` is a live wildcard, so the row with content `"a100b"` is returned by
`search_documents_sql` although `"100%"` is not a substring of its title,
content or author. -/
theorem c5_wildcard_counterexample :
    searchDocumentsSql c5WildSt [49, 48, 48, 37] 50 = [c5WildDoc] ∧
    hasInfix (lowerStr [49, 48, 48, 37]) (lowerStr c5WildDoc.title) = false ∧
    hasInfix (lowerStr [49, 48, 48, 37]) (lowerStr c5WildDoc.content) = false ∧
    hasInfix (lowerStr [49, 48, 48, 37]) (lowerStr c5WildDoc.author) = false := by
  refine ⟨by decide, by decide, by decide, by decide⟩

/-- Claim C5 witness: the amended theorem applied to a store holding one
document titled "A" and the wildcard-free term "a": the document is found
case-insensitively as a substring match, upper-casing the term gives the
same answer, and with semantic search unavailable the page rows carry no
similarity field. -/
theorem c5_witness :
    (List.IsInfix (lowerStr [97]) (lowerStr (mkDoc 1 [65]).title) ∨
     List.IsInfix (lowerStr [97]) (lowerStr (mkDoc 1 [65]).content) ∨
     List.IsInfix (lowerStr [97]) (lowerStr (mkDoc 1 [65]).author)) ∧
    searchDocumentsSql c5St [97] 25 = searchDocumentsSql c5St [65] 25 ∧
    (toRowSql (mkDoc 1 [65])).similarity = none :=
  ⟨(c5_lexical_fallback c5St [97] 25).2.1 (by decide) (mkDoc 1 [65]) (by decide),
   (c5_lexical_fallback c5St [97] 25).2.2.1 [65] (by decide),
   (((c5_lexical_fallback c5St [97] 25).2.2.2 []).resolve_left
     (fun h => h.1 rfl)).2 (toRowSql (mkDoc 1 [65]))
     (by exact List.mem_singleton.mpr rfl)⟩

/-- Claim C7: the similarity score equals `1 / (1 + d)`, lies in `[0, 1]`
for every non-negative distance, and is strictly decreasing in the
distance. -/
theorem c7_similarity_transform (d : ℚ) (hd : 0 ≤ d) :
    similarity d = 1 / (1 + d) ∧ 0 ≤ similarity d ∧ similarity d ≤ 1 ∧
    ∀ d2, d < d2 → similarity d2 < similarity d :=
  ⟨rfl, similarity_nonneg d hd, similarity_le_one d hd,
   fun d2 h => similarity_strict_anti d d2 hd h⟩

/-- Claim C7 witness: the theorem at distance 0, with the strict
monotonicity conjunct instantiated at distance 1. -/
theorem c7_witness :
    (0 ≤ similarity 0 ∧ similarity 0 ≤ 1) ∧ similarity 1 < similarity 0 :=
  ⟨⟨(c7_similarity_transform 0 le_rfl).2.1, (c7_similarity_transform 0 le_rfl).2.2.1⟩,
   (c7_similarity_transform 0 le_rfl).2.2.2 1 (by norm_num)⟩

theorem sortedTake_length (l : List Doc) (lim : Nat) :
    ((sortById l).take lim).length ≤ lim :=
  List.length_take_le _ _

theorem sortedTake_pairwise (l : List Doc) (lim : Nat) :
    List.Pairwise (fun a b => a.id ≤ b.id) ((sortById l).take lim) :=
  (sortById_sorted l).sublist (List.take_sublist _ _)

/-- Claim C8, amended: `get_all_documents` returns documents ordered by
ascending id, at most `limit` of them, and applies the type filter when
one is given (a missing, empty or `"All"` filter disables it).  It has no
offset parameter and returns no total count (see the counterexample). -/
theorem c8_get_all_documents (st : Sys) (lim : Nat) (tf : Option Str) :
    (getAllDocuments st lim tf).length ≤ lim ∧
    List.Pairwise (fun a b => a.id ≤ b.id) (getAllDocuments st lim tf) ∧
    (∀ t, tf = some t → t ≠ [] → t ≠ strAll →
      ∀ d ∈ getAllDocuments st lim tf, d.source_type = t) := by
  by_cases hc : st.connected = true
  · cases tf with
    | none =>
      simp only [getAllDocuments, hc, if_true]
      exact ⟨sortedTake_length _ _, sortedTake_pairwise _ _,
        fun t ht => absurd ht (by simp)⟩
    | some t =>
      by_cases hfil : t ≠ [] ∧ t ≠ strAll
      · simp only [getAllDocuments, hc, if_true, if_pos hfil]
        refine ⟨sortedTake_length _ _, sortedTake_pairwise _ _, ?_⟩
        intro t' ht' _ _ d hd
        obtain rfl : t = t' := by injection ht'
        have h1 : d ∈ sortById (st.docs.filter (fun d => d.source_type = t)) :=
          List.mem_of_mem_take hd
        have h2 := (sortById_perm _).mem_iff.mp h1
        have h3 := List.of_mem_filter h2
        exact of_decide_eq_true h3
      · simp only [getAllDocuments, hc, if_true, if_neg hfil]
        refine ⟨sortedTake_length _ _, sortedTake_pairwise _ _, ?_⟩
        intro t' ht' h1 h2
        obtain rfl : t = t' := by injection ht'
        exact absurd ⟨h1, h2⟩ hfil
  · simp only [getAllDocuments, if_neg hc]
    exact ⟨by simp, by simp, by simp⟩

/-- Claim C8 counterexample: with a two-document store, the claim's
listing with `limit = 1, offset = 1` must return the second document and
`total_count = 2`; the source's `get_all_documents` takes no offset and
returns only the first document and no count, so the second page is
unreachable. -/
theorem c8_offset_counterexample :
    getAllDocuments c8St 1 none = [c8DocA] ∧
    listPerSpec c8St.docs 1 1 none = ([c8DocB], 2) ∧
    c8DocA ≠ c8DocB := by
  refine ⟨rfl, rfl, ?_⟩
  decide

/-- Claim C8 witness: the amended theorem at a concrete store holding one
document of type "x", with the filter conjunct instantiated at the
document the filtered listing returns. -/
theorem c8_witness :
    (getAllDocuments c8StT 1 (some [120])).length ≤ 1 ∧
    c8DocT.source_type = [120] :=
  ⟨(c8_get_all_documents c8StT 1 (some [120])).1,
   (c8_get_all_documents c8StT 1 (some [120])).2.2 [120] rfl (by decide)
     (by decide) c8DocT (by exact List.mem_singleton.mpr rfl)⟩

/-- Claim C9: the only guard on a FAISS row index is
`idx < len(metadatas)`, so every negative index `r` (in Python's resolvable
range) passes it, `metadatas[r]` resolves from the end of the list
(`r = -1` gives the last entry), and a `-1` padding row therefore becomes
a result for the last-indexed document instead of being skipped. -/
theorem c9_negative_index_wraps (st : Sys) (r : Int) (d : ℚ)
    (hneg : r < 0) (hrange : 0 ≤ (st.metadatas.length : Int) + r) :
    r < (st.metadatas.length : Int) ∧
    pyGet st.metadatas r = st.metadatas.get? ((st.metadatas.length : Int) + r).toNat ∧
    pyGet st.metadatas (-1) = st.metadatas.getLast? ∧
    (∀ m doc, st.metadatas.getLast? = some m →
      getDocumentDetails st m.id = some doc →
      st.indexLoaded = true → st.modelLoaded = true →
      semanticSearch st [(-1, d)] = [mkSearchResult m.id doc d]) := by
  refine ⟨?_, ?_, pyGet_neg_one _, ?_⟩
  · have h0 : (0 : Int) ≤ (st.metadatas.length : Int) := Int.natCast_nonneg _
    omega
  · unfold pyGet
    rw [if_neg (by omega), if_pos hrange]
  · intro m doc hm hd hidx hmod
    have hne : st.metadatas ≠ [] := by
      intro h
      rw [h] at hm
      exact Option.noConfusion hm
    have hlen : 1 ≤ st.metadatas.length := List.length_pos.mpr hne
    unfold semanticSearch
    rw [if_pos ⟨hidx, hmod⟩]
    unfold searchLoop
    rw [if_pos (by omega : (-1 : Int) < (st.metadatas.length : Int))]
    rw [pyGet_neg_one, hm]
    simp only
    rw [hd]
    simp [searchLoop]

/-- Claim C9 witness: a FAISS `-1` padding row against a two-entry
metadata list produces a result for document 4, the id of the last
metadata entry. -/
theorem c9_witness :
    semanticSearch c9St [(-1, 3)] = [mkSearchResult 4 c9Doc 3] :=
  (c9_negative_index_wraps c9St (-1) 3 (by decide) (by decide)).2.2.2
    ⟨4⟩ c9Doc (by decide) (by decide) rfl rfl

theorem splitFirstFrame_length : ∀ (s f r : Str),
    splitFirstFrame s = some (f, r) → r.length + 2 ≤ s.length
  | [], f, r => by simp [splitFirstFrame]
  | [c], f, r => by simp [splitFirstFrame]
  | c1 :: c2 :: rest, f, r => by
    simp only [splitFirstFrame]
    split
    · intro h
      rw [Option.some.injEq, Prod.mk.injEq] at h
      obtain ⟨hf, hr⟩ := h
      subst hr
      simp
    · cases hs : splitFirstFrame (c2 :: rest) with
      | none => intro h; simp at h
      | some p =>
        obtain ⟨f', r'⟩ := p
        intro h
        rw [Option.some.injEq, Prod.mk.injEq] at h
        obtain ⟨hf, hr⟩ := h
        have hrec := splitFirstFrame_length (c2 :: rest) f' r' hs
        rw [hr] at hrec
        simp only [List.length_cons] at hrec ⊢
        omega

theorem splitFirstFrame_append : ∀ (a f r b : Str),
    splitFirstFrame a = some (f, r) →
    splitFirstFrame (a ++ b) = some (f, r ++ b)
  | [], f, r, b => by simp [splitFirstFrame]
  | [c], f, r, b => by simp [splitFirstFrame]
  | c1 :: c2 :: rest, f, r, b => by
    simp only [splitFirstFrame, List.cons_append]
    split
    · intro h
      rw [Option.some.injEq, Prod.mk.injEq] at h
      obtain ⟨hf, hr⟩ := h
      subst hf; subst hr
      rfl
    · cases hs : splitFirstFrame (c2 :: rest) with
      | none => intro h; simp at h
      | some p =>
        obtain ⟨f', r'⟩ := p
        intro h
        rw [Option.some.injEq, Prod.mk.injEq] at h
        obtain ⟨hf, hr⟩ := h
        subst hf; subst hr
        have hrec := splitFirstFrame_append (c2 :: rest) f' r' b hs
        rw [List.cons_append] at hrec
        simp only [List.append_eq]
        rw [hrec]

theorem extractFramesAux_fuel : ∀ (f1 f2 : Nat) (buf : Str),
    buf.length ≤ f1 → buf.length ≤ f2 →
    extractFramesAux f1 buf = extractFramesAux f2 buf := by
  intro f1
  induction f1 with
  | zero =>
    intro f2 buf h1 h2
    have hbuf : buf = [] := List.eq_nil_of_length_eq_zero (Nat.le_zero.mp h1)
    subst hbuf
    cases f2 with
    | zero => rfl
    | succ n => simp [extractFramesAux, splitFirstFrame]
  | succ n ih =>
    intro f2 buf h1 h2
    cases f2 with
    | zero =>
      have hbuf : buf = [] := List.eq_nil_of_length_eq_zero (Nat.le_zero.mp h2)
      subst hbuf
      simp [extractFramesAux, splitFirstFrame]
    | succ m =>
      simp only [extractFramesAux]
      cases hs : splitFirstFrame buf with
      | none => rfl
      | some p =>
        obtain ⟨f, rest⟩ := p
        have hlen := splitFirstFrame_length buf f rest hs
        dsimp only
        rw [ih m rest (by omega) (by omega)]

theorem extractFrames_eq (buf : Str) : extractFrames buf =
    match splitFirstFrame buf with
    | none => ([], buf)
    | some (f, rest) => (f :: (extractFrames rest).1, (extractFrames rest).2) := by
  unfold extractFrames
  cases hb : buf.length with
  | zero =>
    have hbuf : buf = [] := List.eq_nil_of_length_eq_zero hb
    subst hbuf
    simp [extractFramesAux, splitFirstFrame]
  | succ n =>
    simp only [extractFramesAux]
    cases hs : splitFirstFrame buf with
    | none => rfl
    | some p =>
      obtain ⟨f, rest⟩ := p
      have hlen := splitFirstFrame_length buf f rest hs
      dsimp only
      rw [extractFramesAux_fuel n rest.length rest (by omega) le_rfl]

theorem extractFrames_of_none (buf : Str) (h : splitFirstFrame buf = none) :
    extractFrames buf = ([], buf) := by
  rw [extractFrames_eq, h]

theorem extractFrames_leftover : ∀ (n : Nat) (buf : Str), buf.length ≤ n →
    splitFirstFrame (extractFrames buf).2 = none := by
  intro n
  induction n with
  | zero =>
    intro buf h
    have hbuf : buf = [] := List.eq_nil_of_length_eq_zero (Nat.le_zero.mp h)
    subst hbuf
    simp [extractFrames, extractFramesAux, splitFirstFrame]
  | succ m ih =>
    intro buf h
    rw [extractFrames_eq]
    cases hs : splitFirstFrame buf with
    | none => exact hs
    | some p =>
      obtain ⟨f, rest⟩ := p
      have hlen := splitFirstFrame_length buf f rest hs
      exact ih rest (by omega)

theorem extractFrames_append : ∀ (n : Nat) (a b : Str), a.length ≤ n →
    extractFrames (a ++ b) =
      ((extractFrames a).1 ++ (extractFrames ((extractFrames a).2 ++ b)).1,
       (extractFrames ((extractFrames a).2 ++ b)).2) := by
  intro n
  induction n with
  | zero =>
    intro a b h
    have ha : a = [] := List.eq_nil_of_length_eq_zero (Nat.le_zero.mp h)
    subst ha
    simp [extractFrames_of_none [] (by simp [splitFirstFrame])]
  | succ m ih =>
    intro a b h
    cases hs : splitFirstFrame a with
    | none =>
      rw [extractFrames_of_none a hs]
      simp
    | some p =>
      obtain ⟨f, rest⟩ := p
      have hlen := splitFirstFrame_length a f rest hs
      have hsab := splitFirstFrame_append a f rest b hs
      rw [extractFrames_eq (a ++ b), hsab]
      rw [extractFrames_eq a, hs]
      simp only
      rw [ih rest b (by omega)]
      simp

theorem procFrames_append (fs gs : List Str) :
    procFrames (fs ++ gs) =
      if (procFrames fs).2 then procFrames fs
      else ((procFrames fs).1 ++ (procFrames gs).1, (procFrames gs).2) := by
  induction fs with
  | nil => simp [procFrames]
  | cons f fs ih =>
    simp only [List.cons_append, procFrames]
    cases frameAct f with
    | skip => exact ih
    | doneA => simp
    | errorA m => simp
    | deltaA s =>
      dsimp only
      simp only [List.append_eq] at ih ⊢
      rw [ih]
      by_cases h2 : (procFrames fs).2 = true
      · simp [h2]
      · simp [h2]

theorem procFrames_not_stopped (fs : List Str)
    (h : (procFrames fs).2 = false) :
    (procFrames fs).1.all isDeltaEv = true := by
  induction fs with
  | nil => simp [procFrames]
  | cons f fs ih =>
    simp only [procFrames] at h ⊢
    cases hact : frameAct f with
    | skip => rw [hact] at h; exact ih h
    | doneA => rw [hact] at h; simp at h
    | errorA m => rw [hact] at h; simp at h
    | deltaA s =>
      rw [hact] at h
      dsimp only at h ⊢
      simp only [List.all_cons, Bool.and_eq_true]
      exact ⟨rfl, ih h⟩

theorem procFrames_stopped (fs : List Str)
    (h : (procFrames fs).2 = true) :
    ∃ pre t, (procFrames fs).1 = pre ++ [t] ∧ pre.all isDeltaEv = true ∧
      (t = Ev.done ∨ ∃ m, t = Ev.errorEv m) := by
  induction fs with
  | nil => simp [procFrames] at h
  | cons f fs ih =>
    simp only [procFrames] at h ⊢
    cases hact : frameAct f with
    | skip => rw [hact] at h; exact ih h
    | doneA => exact ⟨[], Ev.done, by simp, by simp, Or.inl rfl⟩
    | errorA m => exact ⟨[], Ev.errorEv m, by simp, by simp, Or.inr ⟨m, rfl⟩⟩
    | deltaA s =>
      rw [hact] at h
      dsimp only at h ⊢
      obtain ⟨pre, t, h1, h2, h3⟩ := ih h
      refine ⟨Ev.delta s :: pre, t, by simp [h1], ?_, h3⟩
      simp only [List.all_cons, Bool.and_eq_true]
      exact ⟨rfl, h2⟩

theorem runChunks_shape (chunks : List Str) :
    ∀ (readErr : Option Str) (buf : Str),
    ∃ pre, pre.all isDeltaEv = true ∧
      (runChunks readErr buf chunks = pre ++ [Ev.done] ∨
       ∃ m, runChunks readErr buf chunks = pre ++ [Ev.errorEv m]) := by
  induction chunks with
  | nil =>
    intro readErr buf
    cases readErr with
    | none => exact ⟨[], rfl, Or.inl rfl⟩
    | some m => exact ⟨[], rfl, Or.inr ⟨m, rfl⟩⟩
  | cons c rest ih =>
    intro readErr buf
    simp only [runChunks]
    by_cases hq : (procFrames (extractFrames (buf ++ c)).1).2 = true
    · rw [if_pos hq]
      obtain ⟨pre, t, h1, h2, h3⟩ := procFrames_stopped _ hq
      rcases h3 with rfl | ⟨m, rfl⟩
      · exact ⟨pre, h2, Or.inl h1⟩
      · exact ⟨pre, h2, Or.inr ⟨m, h1⟩⟩
    · rw [if_neg hq]
      have hq0 : (procFrames (extractFrames (buf ++ c)).1).2 = false :=
        Bool.eq_false_iff.mpr hq
      have hdel := procFrames_not_stopped _ hq0
      obtain ⟨pre, hall, hcase⟩ := ih readErr (extractFrames (buf ++ c)).2
      refine ⟨(procFrames (extractFrames (buf ++ c)).1).1 ++ pre, ?_, ?_⟩
      · simp only [List.all_append, Bool.and_eq_true]
        exact ⟨hdel, hall⟩
      · rcases hcase with h | ⟨m, h⟩
        · exact Or.inl (by rw [h, List.append_assoc])
        · exact Or.inr ⟨m, by rw [h, List.append_assoc]⟩

theorem runChunks_oneShot (chunks : List Str) : ∀ (buf : Str),
    splitFirstFrame buf = none →
    runChunks none buf chunks = oneShotEvents (buf ++ chunks.join) := by
  induction chunks with
  | nil =>
    intro buf hbuf
    have h1 : buf ++ (List.join ([] : List Str)) = buf := by simp
    rw [h1]
    unfold oneShotEvents
    rw [extractFrames_of_none buf hbuf]
    simp [procFrames, runChunks]
  | cons c rest ih =>
    intro buf hbuf
    have hjoin : buf ++ (c :: rest).join = (buf ++ c) ++ rest.join := by simp
    rw [hjoin]
    unfold oneShotEvents
    rw [extractFrames_append (buf ++ c).length (buf ++ c) rest.join le_rfl]
    simp only
    rw [procFrames_append]
    simp only [runChunks]
    by_cases hq : (procFrames (extractFrames (buf ++ c)).1).2 = true
    · simp [hq]
    · have hq0 : (procFrames (extractFrames (buf ++ c)).1).2 = false :=
        Bool.eq_false_iff.mpr hq
      simp only [hq0, Bool.false_eq_true, if_false]
      rw [ih (extractFrames (buf ++ c)).2
        (extractFrames_leftover (buf ++ c).length (buf ++ c) le_rfl)]
      unfold oneShotEvents
      by_cases hq2 : (procFrames (extractFrames ((extractFrames (buf ++ c)).2 ++ rest.join)).1).2 = true
      · simp [hq2]
      · simp [Bool.eq_false_iff.mpr hq2]

theorem finalContent_error (pre : List Ev) (m : Str) :
    ∀ acc, pre.all isDeltaEv = true →
      finalContent (pre ++ [Ev.errorEv m]) acc = errLabel ++ m := by
  induction pre with
  | nil => intro acc _; rfl
  | cons e pre ih =>
    intro acc h
    simp only [List.all_cons, Bool.and_eq_true] at h
    cases e with
    | delta s => exact ih (acc ++ s) h.2
    | done => simp [isDeltaEv] at h
    | errorEv m2 => simp [isDeltaEv] at h

/-- Claim C10: for every delivered byte stream (and optional reader
failure), the callback trace of `streamChat` is some deltas followed by
exactly one terminal callback (`onDone` or `onError`), with no delta after
it; a frame whose trimmed text does not start with `"data: "` produces
nothing; and at end of stream whatever partial frame is still buffered is
discarded while `onDone` still fires. -/
theorem c10_stream_callbacks :
    (∀ (chunks : List Str) (readErr : Option Str),
      ∃ pre, pre.all isDeltaEv = true ∧
        (streamChat chunks readErr = pre ++ [Ev.done] ∨
         ∃ m, streamChat chunks readErr = pre ++ [Ev.errorEv m])) ∧
    (∀ f fs, dataMark.isPrefixOf (jsTrim f) = false →
      procFrames (f :: fs) = procFrames fs) ∧
    (∀ buf : Str, runChunks none buf [] = [Ev.done]) := by
  refine ⟨?_, ?_, ?_⟩
  · intro chunks readErr
    exact runChunks_shape chunks readErr []
  · intro f fs h
    have hact : frameAct f = FrameAct.skip := by
      simp [frameAct, h]
    simp [procFrames, hact]
  · intro buf
    rfl

/-- Claim C10 witness: a frame that does not carry the data marker is
skipped, and a buffered partial frame at end of stream is dropped while
the done callback still fires. -/
theorem c10_witness :
    procFrames [[58, 120]] = procFrames [] ∧
    runChunks none [104, 105] [] = [Ev.done] :=
  ⟨c10_stream_callbacks.2.1 [58, 120] [] (by decide),
   c10_stream_callbacks.2.2 [104, 105]⟩

/-- Claim C2: the trace a caller sees is exactly the in-order processing
of the empty-line-delimited `"data: "` frames of the whole stream (so
deltas arrive in stream order); a `"[DONE]"` frame terminates the stream
with the done callback while an `"ERROR:"` frame terminates it with the
distinct error callback; and in the chat page the sources event is
strictly after all deltas, never before or between them. -/
theorem c2_streaming_protocol :
    (∀ chunks : List Str, streamChat chunks none = oneShotEvents chunks.join) ∧
    (∀ fs, procFrames (doneFrame :: fs) = ([Ev.done], true)) ∧
    (∀ fs, procFrames (errFrameX :: fs) = ([Ev.errorEv [120]], true)) ∧
    (∀ m : Str, (Ev.done == Ev.errorEv m) = false) ∧
    (∀ chunks readErr fetched, ∃ pre, pre.all isUiDelta = true ∧
      (uiTrace chunks readErr fetched = pre ++ [UiEv.uiSources (fetched.getD [])] ∨
       ∃ m, uiTrace chunks readErr fetched = pre ++ [UiEv.uiErrorMsg m])) := by
  refine ⟨?_, ?_, ?_, ?_, ?_⟩
  · intro chunks
    have h := runChunks_oneShot chunks [] (by rfl)
    rw [List.nil_append] at h
    exact h
  · intro fs
    have hact : frameAct doneFrame = FrameAct.doneA := by decide
    simp [procFrames, hact]
  · intro fs
    have hact : frameAct errFrameX = FrameAct.errorA [120] := by decide
    simp [procFrames, hact]
  · intro m
    rfl
  · intro chunks readErr fetched
    obtain ⟨pre, hall, hcase⟩ := runChunks_shape chunks readErr []
    refine ⟨pre.map (fun e => match e with
      | Ev.delta s => UiEv.uiDelta s
      | Ev.done => UiEv.uiSources (fetched.getD [])
      | Ev.errorEv m => UiEv.uiErrorMsg m), ?_, ?_⟩
    · rw [List.all_eq_true] at hall ⊢
      intro e he
      obtain ⟨d, hd, rfl⟩ := List.mem_map.mp he
      have := hall d hd
      cases d with
      | delta s => rfl
      | done => simp [isDeltaEv] at this
      | errorEv m => simp [isDeltaEv] at this
    · unfold uiTrace streamChat
      rcases hcase with h | ⟨m, h⟩
      · rw [h, List.map_append]
        exact Or.inl rfl
      · rw [h, List.map_append]
        exact Or.inr ⟨m, rfl⟩

/-- Claim C4, amended: when the stream ends with an explicit error event
after some deltas, the chat page replaces the whole assistant message with
the error label plus the message, discarding the already-streamed deltas
instead of keeping them displayed. -/
theorem c4_error_replaces_streamed_content (chunks : List Str)
    (readErr : Option Str) (pre : List Ev) (m : Str)
    (hall : pre.all isDeltaEv = true)
    (htrace : streamChat chunks readErr = pre ++ [Ev.errorEv m]) :
    chatFinalContent chunks readErr = errLabel ++ m := by
  unfold chatFinalContent
  rw [htrace]
  exact finalContent_error pre m [] hall

/-- Claim C4 counterexample: the stream delivers the delta `"Hi"` and then
errors; the trace shows the delta was delivered, yet the final displayed
assistant content is exactly `"Error: boom"` and contains no trace of
`"Hi"` — the already-streamed output is replaced, contradicting the
claim that it remains displayed. -/
theorem c4_retraction_counterexample :
    streamChat c4Chunks none =
      [Ev.delta [72, 105], Ev.errorEv [98, 111, 111, 109]] ∧
    chatFinalContent c4Chunks none = errLabel ++ [98, 111, 111, 109] ∧
    hasInfix [72, 105] (chatFinalContent c4Chunks none) = false := by
  refine ⟨by decide, by decide, by decide⟩

/-- Claim C4 witness: the amended theorem applied to the concrete erroring
stream. -/
theorem c4_witness :
    chatFinalContent c4Chunks none = errLabel ++ [98, 111, 111, 109] :=
  c4_error_replaces_streamed_content c4Chunks none [Ev.delta [72, 105]]
    [98, 111, 111, 109] (by decide) (by decide)

end Research1421
